import Mathlib

set_option linter.unusedVariables false

/-!
Verification of the EchoNews feed-aggregation pipeline, a shallow embedding of
`src/api/index.py`.  Python dictionaries holding one article are embedded as the
`Article` structure, machine floats as rationals, the in-memory cache dictionary
as a partial map, and the retrying network fetch as a function of the sequence
of per-attempt outcomes.  Each claim about the pipeline is stated and settled
against these definitions.
-/

/-- An article dictionary as built by `fetch_rss_feed` (src/api/index.py
lines 1039-1048) and `fetch_news_api` (lines 1124-1136).  The optional
`relevance` field is absent until scoring assigns it. -/
structure Article where
  id : String
  title : String
  summary : String
  sourceName : String
  sourceUrl : String
  publishedDate : String
  link : String
  imageUrl : String
  category : Option String
  relevance : Option ℚ
deriving DecidableEq, Repr

/-- Helper building an article with the fields the pipeline logic reads;
remaining fields are left empty. -/
def mkArt (id title summary sourceName : String) (relevance : Option ℚ) : Article :=
  ⟨id, title, summary, sourceName, "", "", "", "", none, relevance⟩

/-- The response envelope of the news endpoint (`NewsResponse` pydantic model,
src/api/index.py lines 60-67). -/
structure NewsResponse where
  articles : List Article
  message : String
  total_found : Nat
  total_pages : Nat
  current_page : Nat
  available_sources : List String
  available_categories : List String
deriving DecidableEq, Repr

/-! ### String helpers mirroring the Python string operations used -/

/-- Python `str.lower()` (the feeds handled here are ASCII), character by
character over the underlying list. -/
def pyLower (s : String) : String := String.mk (s.data.map Char.toLower)

/-- A character matched by the regex class `\w` (ASCII range). -/
def isWordChar (c : Char) : Bool := c.isAlphanum || c == '_'

/-- Worker for `re.findall(r"\w+", s)`: maximal runs of word characters.
The accumulator holds the current run reversed. -/
def wordRuns : List Char → List Char → List String
  | [], acc => if acc.isEmpty then [] else [String.mk acc.reverse]
  | c :: cs, acc =>
    if isWordChar c then wordRuns cs (c :: acc)
    else if acc.isEmpty then wordRuns cs []
    else String.mk acc.reverse :: wordRuns cs []

/-- Python `re.findall(r"\w+", s.lower())` as used by the clusterer
(src/api/index.py lines 831, 903, 911). -/
def reFindallWords (s : String) : List String := wordRuns (pyLower s).data []

/-- Worker for Python `str.split()` (split on whitespace runs, no empties). -/
def wsRuns : List Char → List Char → List String
  | [], acc => if acc.isEmpty then [] else [String.mk acc.reverse]
  | c :: cs, acc =>
    if c.isWhitespace then
      if acc.isEmpty then wsRuns cs [] else String.mk acc.reverse :: wsRuns cs []
    else wsRuns cs (c :: acc)

/-- Python `str.split()` with no separator argument. -/
def pySplit (s : String) : List String := wsRuns s.data []

/-- Decides whether `needle` occurs as a contiguous sublist of the second
argument (Python substring test `needle in hay`; an empty needle matches). -/
def listIsInfix (needle : List Char) : List Char → Bool
  | [] => needle.isEmpty
  | c :: rest => needle.isPrefixOf (c :: rest) || listIsInfix needle rest

/-- Python `needle in hay` on strings. -/
def pyInStr (needle hay : String) : Bool := listIsInfix needle.data hay.data

/-- Python string `<` (lexicographic on code points), as a Bool. -/
def charListLt : List Char → List Char → Bool
  | [], [] => false
  | [], _ :: _ => true
  | _ :: _, [] => false
  | c :: cs, d :: ds => if c < d then true else if d < c then false else charListLt cs ds

/-- Python `a < b` on strings, used by `sorted(word_freq.keys())`. -/
def pyStrLt (a b : String) : Bool := charListLt a.data b.data

/-! ### Cache (src/api/index.py lines 734-735, 1243-1245, 1276-1279) -/

/-- `CACHE_EXPIRY = 1800` (line 735), in seconds. -/
def CACHE_EXPIRY : ℚ := 1800

/-- The value stored under one key of `NEWS_CACHE` (lines 1276-1279). -/
structure CacheEntry where
  timestamp : ℚ
  articles : List Article
deriving DecidableEq

/-- The global `NEWS_CACHE` dictionary, embedded as a partial map. -/
def NewsCache : Type := String → Option CacheEntry

/-- `NEWS_CACHE = {}` (line 734). -/
def emptyCache : NewsCache := fun _ => none

/-- The cache key `f"{language}-{category}"` (line 1240) or
`f"{language}-all"` (line 1282). -/
def cacheKey (language : String) (category : Option String) : String :=
  match category with
  | some c => language ++ "-" ++ c
  | none => language ++ "-all"

/-- The cache read of `get_news` (lines 1243-1245): the entry is used iff it
exists and `current_time - timestamp < CACHE_EXPIRY`. -/
def cacheLookup (cache : NewsCache) (k : String) (now : ℚ) : Option (List Article) :=
  match cache k with
  | some e => if now - e.timestamp < CACHE_EXPIRY then some e.articles else none
  | none => none

/-- The cache write of `get_news` (lines 1276-1279): unconditional assignment
`NEWS_CACHE[cache_key] = {"timestamp": current_time, "articles": articles}`. -/
def cacheStore (cache : NewsCache) (k : String) (now : ℚ) (articles : List Article) :
    NewsCache :=
  fun k2 => if k2 = k then some ⟨now, articles⟩ else cache k2

/-! ### Coordinator deduplication and fallback append
(src/api/index.py lines 1172-1180, 1271-1273, 1300-1302) -/

/-- The deduplication loop of `fetch_all_feeds` (lines 1172-1180): a dict keyed
by title is filled in merge order, keeping the first article per title;
`list(unique_articles.values())` preserves insertion order. -/
def dedupByTitle (articles : List Article) : List Article :=
  articles.foldl
    (fun acc a => if acc.any (fun b => b.title == a.title) then acc else acc ++ [a]) []

/-- The fallback append of `get_news` (lines 1271-1273 category-scoped with
threshold 10, lines 1300-1302 general with threshold 30): when the merged
result set is small the NewsAPI articles are appended with `articles.extend`. -/
def appendFallback (articles newsApiArticles : List Article) (threshold : Nat) :
    List Article :=
  if articles.length < threshold then articles ++ newsApiArticles else articles

/-! ### Preferred-source filtering (src/api/index.py lines 1319-1333) -/

/-- One article passes the filter iff some preferred source name is a
case-insensitive substring of its source name (line 1321-1322). -/
def matchesPreferred (preferredSources : List String) (a : Article) : Bool :=
  preferredSources.any (fun ps => pyInStr (pyLower ps) (pyLower a.sourceName))

/-- Outcome of the filtering stage: either an early `NewsResponse` return or
the surviving article list handed to the rest of the handler. -/
inductive FilterStep where
  | early (r : NewsResponse)
  | pass (articles : List Article)
deriving DecidableEq

/-- The preferred-source filtering stage of `get_news` (lines 1319-1333): with
a non-empty preference list the articles are filtered; if none survive, a
normal explanatory response is returned early. -/
def preferredSourceFilter (preferredSources : List String) (articles : List Article)
    (page : Nat) (availableSources availableCategories : List String) : FilterStep :=
  if preferredSources.length > 0 then
    let filtered := articles.filter (matchesPreferred preferredSources)
    if filtered.isEmpty then
      .early ⟨[], "No articles found from your preferred sources. Try selecting different sources.",
        0, 0, page, availableSources, availableCategories⟩
    else .pass filtered
  else .pass articles

/-! ### Pagination (src/api/index.py lines 1386-1391) -/

/-- `total_pages = (total_matches + page_size - 1) // page_size` (line 1386). -/
def totalPagesOf (totalMatches pageSize : Nat) : Nat :=
  (totalMatches + pageSize - 1) / pageSize

/-- The page slice (lines 1387-1391): `start_idx = (page - 1) * page_size`,
`end_idx = min(start_idx + page_size, total_matches)`, then
`filtered_articles[start_idx:end_idx]`. -/
def pageSlice (filtered : List Article) (totalMatches page pageSize : Nat) :
    List Article :=
  let startIdx := (page - 1) * pageSize
  let endIdx := min (startIdx + pageSize) totalMatches
  (filtered.drop startIdx).take (endIdx - startIdx)

/-! ### Clustering (src/api/index.py lines 738-749, 806-922) -/

/-- The text content used for similarity, `f"{title} {summary}"`
(lines 828, 902, 910). -/
def articleText (a : Article) : String := a.title ++ " " ++ a.summary

/-- Python `set(re.findall(r"\w+", text.lower()))`, represented as the
duplicate-free list of words in first-occurrence order (lines 903, 911). -/
def wordSet (s : String) : List String := (reFindallWords s).dedup

/-- The comparison `len(w1 & w2) / len(w1 | w2) >= threshold` (lines 914-916)
for duplicate-free word lists.  The source divides floats; since both
denominators are positive the comparison equals the exact cross
multiplication `threshold.num * union ≤ inter * threshold.den`, and for an
empty union (unreachable past the guard of line 914) the similarity is 0,
giving `threshold ≤ 0`, i.e. `threshold.num ≤ 0`. -/
def jaccardGe (w1 w2 : List String) (threshold : ℚ) : Bool :=
  let inter := (w1.filter (fun w => w2.contains w)).length
  let union := (w1 ++ w2.filter (fun w => !w1.contains w)).length
  if union = 0 then decide (threshold.num ≤ 0)
  else decide (threshold.num * (union : ℤ) ≤ (inter : ℤ) * (threshold.den : ℤ))

/-- Inner loop of `direct_cluster_articles` (lines 905-918): scan the articles
after the cluster seed, adding each unused one whose Jaccard similarity with
the seed text reaches the threshold.  Returns the grown cluster and the grown
`used` id set. -/
def directGather (threshold : ℚ) (w1 : List String) :
    List Article → List Article → List String → List Article × List String
  | [], cluster, used => (cluster, used)
  | b :: rest, cluster, used =>
    if used.contains b.id then directGather threshold w1 rest cluster used
    else
      let w2 := wordSet (articleText b)
      if !w1.isEmpty && !w2.isEmpty && jaccardGe w1 w2 threshold then
        directGather threshold w1 rest (cluster ++ [b]) (used ++ [b.id])
      else directGather threshold w1 rest cluster used

/-- Outer loop of `direct_cluster_articles` (lines 893-920): each article whose
id is not yet used seeds a new cluster. -/
def directClusterAux (threshold : ℚ) : List Article → List String → List (List Article)
  | [], _ => []
  | a :: rest, used =>
    if used.contains a.id then directClusterAux threshold rest used
    else
      let w1 := wordSet (articleText a)
      let grown := directGather threshold w1 rest [a] (used ++ [a.id])
      grown.1 :: directClusterAux threshold rest grown.2

/-- `direct_cluster_articles` (lines 888-922). -/
def direct_cluster_articles (articles : List Article) (threshold : ℚ) :
    List (List Article) :=
  directClusterAux threshold articles []

/-- One step of the `word_freq` dictionary build (lines 832-835): count a word,
inserting it on first sight (Python dicts keep insertion order). -/
def bumpCount (m : List (String × Nat)) (w : String) : List (String × Nat) :=
  if m.any (fun p => p.1 == w) then
    m.map (fun p => if p.1 == w then (p.1, p.2 + 1) else p)
  else m ++ [(w, 1)]

/-- `word_freq` for one article (lines 831-835): words of length > 2 only. -/
def wordFreq (ws : List String) : List (String × Nat) :=
  ws.foldl (fun m w => if w.length > 2 then bumpCount m w else m) []

/-- Count stored for `w` in the frequency table, 0 if absent. -/
def lookupCount (m : List (String × Nat)) (w : String) : Nat :=
  ((m.find? (fun p => p.1 == w)).map (fun p => p.2)).getD 0

/-- Insertion step for Python `sorted` over strings. -/
def insertStr (w : String) : List String → List String
  | [] => [w]
  | v :: vs => if pyStrLt w v then w :: v :: vs else v :: insertStr w vs

/-- Python `sorted(keys)` over strings (code-point order). -/
def sortStrs (ws : List String) : List String := ws.foldr insertStr []

/-- The term-frequency vector of one article (lines 837-842): counts of the
words of length > 2, normalized by their total, in lexically sorted key
order; empty when the article has no such words.  The source stores the list
of floats `count(w) / doc_len`; since every entry shares the denominator
`doc_len`, the embedding carries the integer counts in key order paired with
that denominator, representing the same vector exactly. -/
def embedVec (a : Article) : List Nat × Nat :=
  let wf := wordFreq (reFindallWords (articleText a))
  let docLen : Nat := (wf.map (fun p => p.2)).sum
  if docLen = 0 then ([], 0)
  else ((sortStrs (wf.map (fun p => p.1))).map (fun w => lookupCount wf w), docLen)

/-- The `embeddings` dictionary (lines 825-845): keyed by article id, only
articles with a non-empty vector are inserted; a later article with the same
id overwrites the earlier entry. -/
def buildEmbeddings (articles : List Article) : List (String × (List Nat × Nat)) :=
  articles.foldl
    (fun m a =>
      let v := embedVec a
      if v.1.isEmpty then m
      else if m.any (fun p => p.1 == a.id) then
        m.map (fun p => if p.1 == a.id then (p.1, v) else p)
      else m ++ [(a.id, v)])
    []

/-- Lookup in the `embeddings` dictionary. -/
def embLookup (emb : List (String × (List Nat × Nat))) (id : String) :
    Option (List Nat × Nat) :=
  (emb.find? (fun p => p.1 == id)).map (fun p => p.2)

/-- The comparison `cosine_similarity(v1, v2) >= threshold` with
`cosine_similarity` from lines 738-749, for vectors given as integer counts
`c` over a positive common denominator `n` (the vector entries are `cᵢ/n`).
The source computes `dot / (sqrt(sq1) * sqrt(sq2))`, and 0 when a vector is
empty, the lengths differ, or a magnitude is zero.  With `D = Σ c1ᵢ*c2ᵢ`,
`S1 = Σ c1ᵢ²` and `S2 = Σ c2ᵢ²` the denominators cancel and the cosine is
`D / sqrt (S1 * S2)`; eliminating the square root exactly, for `S1 * S2 > 0`
the comparison is `0 ≤ D ∧ threshold.num² * S1 * S2 ≤ threshold.den² * D²`
when `threshold ≥ 0` (iff `threshold.num ≥ 0`), and
`0 ≤ D ∨ threshold.den² * D² ≤ threshold.num² * S1 * S2` when negative;
a zero cosine compares as `threshold ≤ 0`, i.e. `threshold.num ≤ 0`. -/
def cosineGe (v1 v2 : List Nat × Nat) (threshold : ℚ) : Bool :=
  if v1.1.isEmpty || v2.1.isEmpty || v1.1.length != v2.1.length then
    decide (threshold.num ≤ 0)
  else
    let d : ℤ := ((v1.1.zip v2.1).map (fun p => (p.1 : ℤ) * (p.2 : ℤ))).sum
    let s1 : ℤ := (v1.1.map (fun c => (c : ℤ) * (c : ℤ))).sum
    let s2 : ℤ := (v2.1.map (fun c => (c : ℤ) * (c : ℤ))).sum
    if s1 * s2 = 0 then decide (threshold.num ≤ 0)
    else if 0 ≤ threshold.num then
      decide (0 ≤ d ∧
        threshold.num * threshold.num * (s1 * s2)
          ≤ (threshold.den : ℤ) * (threshold.den : ℤ) * (d * d))
    else
      decide (0 ≤ d ∨
        (threshold.den : ℤ) * (threshold.den : ℤ) * (d * d)
          ≤ threshold.num * threshold.num * (s1 * s2))

/-- The cross-cluster similarity test of the merge step (lines 858-872): some
pair of articles, one from each cluster, both present in the embeddings
dictionary, with equal-length vectors and cosine similarity at or above the
threshold. -/
def anySimilarPair (emb : List (String × (List Nat × Nat))) (threshold : ℚ)
    (rc lc : List Article) : Bool :=
  rc.any fun r =>
    match embLookup emb r.id with
    | none => false
    | some re =>
      lc.any fun l =>
        match embLookup emb l.id with
        | none => false
        | some le => re.1.length == le.1.length && cosineGe re le threshold

/-- The conquer step of `cluster_similar_articles` (lines 852-886).  When a
right cluster is similar to some cluster already in the result, the source
executes `result[i] = list(set(left_cluster + right_cluster))`; the clusters
are lists of Python dicts, which are unhashable, so this raises `TypeError`.
The step is therefore embedded in `Except`: a triggered merge is the error
case, an unmatched right cluster is appended. -/
def mergeClusters (emb : List (String × (List Nat × Nat))) (threshold : ℚ)
    (left right : List (List Article)) : Except String (List (List Article)) :=
  right.foldl
    (fun res rc =>
      match res with
      | .error e => .error e
      | .ok acc =>
        if acc.any (fun lc => anySimilarPair emb threshold rc lc) then
          .error "TypeError: unhashable type: dict"
        else .ok (acc ++ [rc]))
    (.ok left)

/-- Recursion worker for `cluster_similar_articles` (lines 806-886): empty
input gives no clusters, at most 5 articles are clustered directly, larger
inputs are split at the midpoint, clustered recursively, and merged.  The
source recursion halves the list, so the list length bounds the recursion
depth; the structural `fuel` argument carries that bound (the zero-fuel
branch is unreachable whenever `articles.length ≤ fuel`, since each split
strictly shrinks the list). -/
def clusterFuel (threshold : ℚ) : Nat → List Article → Except String (List (List Article))
  | fuel, articles =>
    if articles.isEmpty then .ok []
    else if articles.length ≤ 5 then .ok (direct_cluster_articles articles threshold)
    else
      match fuel with
      | 0 => .ok []
      | fuel + 1 =>
        let emb := buildEmbeddings articles
        let mid := articles.length / 2
        match clusterFuel threshold fuel (articles.take mid),
              clusterFuel threshold fuel (articles.drop mid) with
        | .ok left, .ok right => mergeClusters emb threshold left right
        | .error e, _ => .error e
        | .ok _, .error e => .error e

/-- `cluster_similar_articles(articles, threshold)` (lines 806-886). -/
def cluster_similar_articles (articles : List Article) (threshold : ℚ) :
    Except String (List (List Article)) :=
  clusterFuel threshold articles.length articles

/-! ### QuickSelect (src/api/index.py lines 752-803) -/

/-- The in-place swap `arr[i], arr[j] = arr[j], arr[i]` on a list; an index out
of range leaves the list unchanged (the algorithm only swaps in range). -/
def listSwap {α : Type} (l : List α) (i j : Nat) : List α :=
  match l[i]?, l[j]? with
  | some x, some y => (l.set i y).set j x
  | _, _ => l

theorem listSwap_length {α : Type} (l : List α) (i j : Nat) :
    (listSwap l i j).length = l.length := by
  unfold listSwap
  cases h1 : l[i]? <;> cases h2 : l[j]? <;> simp

/-- The Lomuto partition loop (lines 776-780): for each index `i` in
`[i, stop)`, an element with key at most the pivot value is swapped down to
position `store`, which then advances.  `stop` is where the pivot is parked.
The loop makes exactly `stop - i` iterations, carried here as the structural
`fuel` argument (when `fuel = stop - i` the zero-fuel exit coincides with the
loop exit `¬ i < stop`). -/
def lomutoFuel {α : Type} (key : α → ℚ) (pv : ℚ) :
    Nat → List α → Nat → Nat → Nat → List α × Nat
  | 0, l, store, _, _ => (l, store)
  | fuel + 1, l, store, i, stop =>
    if i < stop then
      match l[i]? with
      | none => (l, store)
      | some x =>
        if key x ≤ pv then
          lomutoFuel key pv fuel (listSwap l i store) (store + 1) (i + 1) stop
        else lomutoFuel key pv fuel l store (i + 1) stop
    else (l, store)

/-- The Lomuto loop entered at index `i` with bound `stop`. -/
def lomutoLoop {α : Type} (key : α → ℚ) (pv : ℚ) (l : List α) (store i stop : Nat) :
    List α × Nat :=
  lomutoFuel key pv (stop - i) l store i stop

theorem lomutoFuel_length {α : Type} (key : α → ℚ) (pv : ℚ) :
    ∀ (fuel : Nat) (l : List α) (store i stop : Nat),
      (lomutoFuel key pv fuel l store i stop).1.length = l.length := by
  intro fuel
  induction fuel with
  | zero => intro l store i stop; rfl
  | succ fuel ih =>
    intro l store i stop
    rw [lomutoFuel]
    by_cases h : i < stop
    · simp only [if_pos h]
      cases hx : l[i]? with
      | none => rfl
      | some x =>
        by_cases hle : key x ≤ pv
        · simp only [if_pos hle]
          rw [ih, listSwap_length]
        · simp only [if_neg hle]
          exact ih _ _ _ _
    · simp [if_neg h]

theorem lomutoFuel_store_le {α : Type} (key : α → ℚ) (pv : ℚ) :
    ∀ (fuel : Nat) (l : List α) (store i stop : Nat),
      store ≤ i → i ≤ stop → (lomutoFuel key pv fuel l store i stop).2 ≤ stop := by
  intro fuel
  induction fuel with
  | zero => intro l store i stop hsi his; simpa [lomutoFuel] using le_trans hsi his
  | succ fuel ih =>
    intro l store i stop hsi his
    rw [lomutoFuel]
    by_cases h : i < stop
    · simp only [if_pos h]
      cases hx : l[i]? with
      | none => simp only []; omega
      | some x =>
        by_cases hle : key x ≤ pv
        · simp only [if_pos hle]
          exact ih _ _ _ _ (by omega) (by omega)
        · simp only [if_neg hle]
          exact ih _ _ _ _ (by omega) (by omega)
    · simp only [if_neg h]
      omega

theorem lomutoLoop_length {α : Type} (key : α → ℚ) (pv : ℚ) (l : List α)
    (store i stop : Nat) : (lomutoLoop key pv l store i stop).1.length = l.length :=
  lomutoFuel_length key pv _ l store i stop

theorem lomutoLoop_store_le {α : Type} (key : α → ℚ) (pv : ℚ) (l : List α)
    (store i stop : Nat) (hsi : store ≤ i) (his : i ≤ stop) :
    (lomutoLoop key pv l store i stop).2 ≤ stop :=
  lomutoFuel_store_le key pv _ l store i stop hsi his

/-- The pivot value `pivot_val = key(arr[pivot_idx])` (line 771), read before
any swap; 0 on an empty segment (never used there). -/
def pivotVal {α : Type} (key : α → ℚ) (l : List α) : ℚ :=
  match l[(l.length - 1) / 2]? with
  | some piv => key piv
  | none => 0

/-- `partition(low, high, pivot_idx)` (lines 770-784) acting on the segment
`arr[low..high]` as a list: relative to the segment, `pivot_idx =
(low + high) // 2` is `(len - 1) / 2`.  The pivot value is read first, the
pivot is parked at the last position (line 773), the Lomuto loop runs over the
remaining positions, and the pivot is swapped into its final position `store`
(line 783). -/
def pyPartitionSeg {α : Type} (key : α → ℚ) (l : List α) : List α × Nat :=
  let n := l.length
  let parked := listSwap l ((n - 1) / 2) (n - 1)
  let lp := lomutoLoop key (pivotVal key l) parked 0 0 (n - 1)
  (listSwap lp.1 lp.2 (n - 1), lp.2)

theorem pyPartitionSeg_length {α : Type} (key : α → ℚ) (l : List α) :
    (pyPartitionSeg key l).1.length = l.length := by
  unfold pyPartitionSeg
  simp only [listSwap_length]
  rw [lomutoLoop_length, listSwap_length]

theorem pyPartitionSeg_snd_lt {α : Type} (key : α → ℚ) (l : List α)
    (hl : l ≠ []) : (pyPartitionSeg key l).2 < l.length := by
  have hlen : 0 < l.length := List.length_pos.mpr hl
  unfold pyPartitionSeg
  simp only []
  have hle := lomutoLoop_store_le key (pivotVal key l)
    (listSwap l ((l.length - 1) / 2) (l.length - 1)) 0 0 (l.length - 1)
    (Nat.le_refl 0) (Nat.zero_le _)
  omega

/-- Recursion worker for `select(low, high, k_idx)` (lines 786-801), acting
on the segment `arr[low..high]` as a list with `k_idx` relative to the
segment: a single-element segment returns its element; otherwise the segment
is partitioned and selection recurses into the side containing `k_idx`.  The
recursion discards at least the pivot each round, so the segment length
bounds the recursion depth; the structural `fuel` argument carries that bound
(the zero-fuel branch is unreachable whenever `l.length ≤ fuel`). -/
def quickSelectSegFuel {α : Type} (key : α → ℚ) : Nat → List α → Nat → Option α
  | 0, _, _ => none
  | fuel + 1, l, kidx =>
    if l.length = 1 then l[0]?
    else if l.length = 0 then none
    else
      let pr := pyPartitionSeg key l
      if kidx = pr.2 then pr.1[kidx]?
      else if kidx < pr.2 then quickSelectSegFuel key fuel (pr.1.take pr.2) kidx
      else quickSelectSegFuel key fuel (pr.1.drop (pr.2 + 1)) (kidx - (pr.2 + 1))

/-- `select(0, len(arr) - 1, k_idx)` (line 803) on a whole segment. -/
def quickSelectSeg {α : Type} (key : α → ℚ) (l : List α) (kidx : Nat) : Option α :=
  quickSelectSegFuel key l.length l kidx

/-- `quick_select(arr, k, key)` (lines 752-803): `None` for an empty list or
`k` out of range (lines 764-765); otherwise selection of the element that
would sit at 0-based index `len(arr) - k` in ascending key order (line 768). -/
def quick_select {α : Type} (arr : List α) (k : ℤ) (key : α → ℚ) : Option α :=
  if arr.length = 0 ∨ k < 1 ∨ (arr.length : ℤ) < k then none
  else quickSelectSeg key arr (arr.length - k.toNat)

/-! ### The k-th largest key, the specification-side order statistic -/

/-- Insertion into a descending-sorted list of keys. -/
def insertDescQ (x : ℚ) : List ℚ → List ℚ
  | [] => [x]
  | y :: ys => if y < x then x :: y :: ys else y :: insertDescQ x ys

/-- The keys sorted in descending order (insertion sort). -/
def sortDescQ : List ℚ → List ℚ
  | [] => []
  | x :: xs => insertDescQ x (sortDescQ xs)

/-- The k-th largest key of a list of keys, 1-based: entry `k - 1` of the
descending sort.  This is the claim-side description of what `quick_select`
must return. -/
def kthLargestKey (ks : List ℚ) (k : Nat) : Option ℚ := (sortDescQ ks)[k - 1]?

/-! ### Cluster representatives and diversification
(src/api/index.py lines 1342-1356) -/

/-- The selection key of line 1350 and sort key of line 1356,
Python `x.get("relevance", 0)`. -/
def relKey (a : Article) : ℚ := a.relevance.getD 0

/-- Stable insertion for the descending relevance sort: the new article is
placed before the first article whose key is not larger. -/
def insertArtDesc (a : Article) : List Article → List Article
  | [] => [a]
  | b :: bs => if relKey a < relKey b then b :: insertArtDesc a bs else a :: b :: bs

/-- `sorted(diverse_results, key=..., reverse=True)` (line 1356): the stable
descending sort by relevance (Python sorts are stable, so articles with equal
keys keep their relative order). -/
def sortByRelDesc (articles : List Article) : List Article :=
  articles.foldr insertArtDesc []

/-- The diversification stage of `get_news` (lines 1342-1356), applied to the
scored article list: the clusters are computed with the default threshold 0.6,
the most relevant representative of each non-empty cluster is picked by
`quick_select(cluster, 1, relevance)`, and when at least
`min(10, len(scored))` representatives exist they replace the scored list,
sorted descending by relevance. -/
def diversifyStage (scored : List Article) : Except String (List Article) :=
  match cluster_similar_articles scored (mkRat 3 5) with
  | .error e => .error e
  | .ok clusters =>
    let diverse := clusters.foldl
      (fun acc cluster =>
        if cluster.length > 0 then
          match quick_select cluster 1 relKey with
          | some best => acc ++ [best]
          | none => acc
        else acc) []
    .ok (if min 10 scored.length ≤ diverse.length then sortByRelDesc diverse else scored)

/-! ### Relevance scoring, modelled from the spec

The news endpoint evaluates `advanced_semantic_search(articles, query)` at
src/api/index.py line 1340, but no definition of that name exists anywhere
under src/.  The per-article score that call is specified to compute is
modelled here from spec section 4.4 (steps 1-7). -/

/-- Modelled from the spec: the fixed sports-context keyword set of scoring
step 5. -/
def sportsKeywords : List String := ["vs", "cricket", "ipl", "match", "game", "score"]

/-- Modelled from the spec: `exact_match_bonus` (step 2), 0.5 when the full
lowercased query appears verbatim in the lowercased title+summary text. -/
def exactMatchBonus (a : Article) (query : String) : ℚ :=
  if pyInStr (pyLower query) (pyLower (articleText a)) then 1/2 else 0

/-- Modelled from the spec: the fraction of the query terms individually
present in the given text (steps 3 and 4 apply this to the combined text and
to the title respectively); 0 when there are no terms. -/
def termFrac (terms : List String) (text : String) : ℚ :=
  if terms.length = 0 then 0
  else ((terms.filter (fun t => pyInStr t text)).length : ℚ) / (terms.length : ℚ)

/-- Modelled from the spec: step 5, `0.2 * min(1, count of known team-acronym
tokens found in the text)` when the query contains a sports-context keyword,
else 0.  The fixed team-acronym set is passed as a parameter. -/
def sportsBoost (teamAcronyms terms : List String) (text : String) : ℚ :=
  if terms.any (fun t => sportsKeywords.contains t) then
    (1/5) * min 1 ((teamAcronyms.filter (fun t => pyInStr t text)).length : ℚ)
  else 0

/-- Modelled from the spec: step 6, the recency bonus, 0.1 decaying by 0.01
per elapsed day and floored at 0; nothing when no publish timestamp parses. -/
def recencyBonus (daysElapsed : Option Nat) : ℚ :=
  match daysElapsed with
  | some d => max 0 (1/10 - (d : ℚ)/100)
  | none => 0

/-- Modelled from the spec: the relevance score of one article for a query
(section 4.4): the sum of the exact-match bonus, 0.3 × term ratio over the
combined text, 0.4 × term ratio over the title, the sports boost and the
recency bonus, clamped to a maximum of 1.0 (step 7). -/
def relevanceScore (teamAcronyms : List String) (a : Article) (query : String)
    (daysElapsed : Option Nat) : ℚ :=
  let q := pyLower query
  let text := pyLower (articleText a)
  let titleText := pyLower a.title
  let terms := pySplit q
  min (exactMatchBonus a query + (3/10) * termFrac terms text
       + (2/5) * termFrac terms titleText
       + sportsBoost teamAcronyms terms text + recencyBonus daysElapsed) 1

/-! ### Feed fetching with retries (src/api/index.py lines 996-1063) -/

/-- One entry of a parsed feed: either malformed (its field extraction raises,
so lines 1050-1052 skip it) or a well-formed entry carrying the extracted
fields; absent optional fields are `none` (Python `hasattr` probes). -/
inductive FeedEntry where
  | malformed
  | entry (title summary link : String) (pubDate : Option String) (image : Option String)
deriving DecidableEq

/-- The outcome of one `feedparser.parse` attempt: an exception during
fetch/parse, or a parsed feed with its entry list. -/
inductive FeedAttempt where
  | raise
  | parsed (entries : List FeedEntry)
deriving DecidableEq

/-- Helper for the regex `<.*?>`: the characters after the first `>` reachable
without crossing a newline (`.` does not match a newline), if any. -/
def findTagEnd : List Char → Option (List Char)
  | [] => none
  | c :: rest =>
    if c = '>' then some rest
    else if c = '\n' then none
    else findTagEnd rest

theorem findTagEnd_length :
    ∀ (l r : List Char), findTagEnd l = some r → r.length < l.length := by
  intro l
  induction l with
  | nil => intro r h; exact absurd h (by simp [findTagEnd])
  | cons c cs ih =>
    intro r h
    unfold findTagEnd at h
    by_cases hgt : c = '>'
    · rw [if_pos hgt] at h
      injection h with h
      subst h
      simp
    · rw [if_neg hgt] at h
      by_cases hnl : c = '\n'
      · rw [if_pos hnl] at h
        exact absurd h (by simp)
      · rw [if_neg hnl] at h
        exact Nat.lt_trans (ih r h) (by simp)

/-- `re.sub(r"<.*?>", "", s)` (lines 1022 and 1025): every `<` that reaches a
`>` without crossing a newline is removed together with the characters in
between; a `<` with no such `>` stays. -/
def stripTags : List Char → List Char
  | [] => []
  | '<' :: rest =>
    match h : findTagEnd rest with
    | some rest2 => stripTags rest2
    | none => '<' :: stripTags rest
  | c :: rest => c :: stripTags rest
termination_by l => l.length
decreasing_by
  · exact Nat.lt_trans (findTagEnd_length rest rest2 h) (by simp)
  · simp
  · simp

/-- Per-entry processing of `fetch_rss_feed` (lines 1018-1052): a malformed
entry is skipped; otherwise title and summary are tag-stripped, the publish
date defaults to the fetch time `now`, the image falls back to the per-source
default, and the id is the hash of title + source name.  `pyHash` abstracts
the run-dependent Python `hash`; the source name and default image come from
the injected configuration tables. -/
def processEntry (pyHash : String → String) (sourceName feedUrl sourceImage : String)
    (category : Option String) (now : String) : FeedEntry → Option Article
  | .malformed => none
  | .entry title summary link pubDate image =>
    let t := String.mk (stripTags title.data)
    let s := String.mk (stripTags summary.data)
    some ⟨pyHash (t ++ sourceName), t, s, sourceName, feedUrl, pubDate.getD now,
      link, image.getD sourceImage, category, none⟩

/-- The retry loop of `fetch_rss_feed` (lines 998-1063), driven by the
sequence of per-attempt outcomes; the second argument of the pair counts the
attempts made.  A parsed feed with no entries returns the empty list at once
(lines 1007-1009); otherwise its entries are processed, skipping malformed
ones.  An exception on the last attempt returns the empty list
(lines 1057-1060); any earlier exception sleeps and retries (lines 1062-1063).
A `none` result models falling out of the loop, possible only when the retry
bound is 0. -/
def fetchLoop (attempts : Nat → FeedAttempt) (pe : FeedEntry → Option Article) :
    Nat → Nat → Option (List Article) × Nat
  | retry, 0 => (none, retry)
  | retry, remaining + 1 =>
    match attempts retry with
    | .parsed entries =>
      if entries.isEmpty then (some [], retry + 1)
      else (some (entries.filterMap pe), retry + 1)
    | .raise =>
      if remaining = 0 then (some [], retry + 1)
      else fetchLoop attempts pe (retry + 1) remaining

/-- `fetch_rss_feed(feed_url, category, max_retries)` (lines 996-1063) as a
function of the attempt outcomes and the per-entry processor. -/
def fetch_rss_feed (attempts : Nat → FeedAttempt) (pe : FeedEntry → Option Article)
    (maxRetries : Nat) : Option (List Article) × Nat :=
  fetchLoop attempts pe 0 maxRetries

/-! ### The scoring stage and the unbound name it calls
(src/api/index.py lines 1338-1340, 1408-1409) -/

/-- The names bound at module top level in src/api/index.py: the imports
(lines 1-17), the module globals (lines 18, 20, 23, 25, 70, 659, 721, 734,
735), the pydantic models (lines 37-67) and the function definitions.
`advanced_semantic_search` is not among them. -/
def moduleTopLevelNames : List String :=
  ["FastAPI", "HTTPException", "Query", "BaseModel", "feedparser", "re",
   "List", "Optional", "Dict", "Any", "CORSMiddleware", "time", "datetime",
   "timedelta", "json", "socket", "random", "ThreadPoolExecutor",
   "as_completed", "httpx", "os", "genai", "GEMINI_API_KEY", "model",
   "NEWS_API_KEY", "app", "NewsRequest", "NewsSource", "NewsArticle",
   "NewsResponse", "RSS_FEEDS", "NEWS_SOURCE_NAMES", "DEFAULT_SOURCE_IMAGES",
   "NEWS_CACHE", "CACHE_EXPIRY", "cosine_similarity", "quick_select",
   "cluster_similar_articles", "direct_cluster_articles", "hello_fast_api",
   "get_news_sources", "get_categories", "extract_image_from_entry",
   "fetch_rss_feed", "fetch_news_api", "fetch_all_feeds",
   "determine_category_for_query", "get_news", "compute_similarity"]

/-- Whether the global name `advanced_semantic_search` is bound when
`get_news` reaches line 1340 (a Python global-name lookup at call time). -/
def advancedSemanticSearchDefined : Bool :=
  moduleTopLevelNames.contains "advanced_semantic_search"

/-- The call `advanced_semantic_search(articles, query)` of line 1340: a
lookup of the name in the module namespace followed by the call.  The unbound
name raises `NameError`; the bound branch cannot run (the name is absent from
`moduleTopLevelNames`) and returns the untouched input as a placeholder. -/
def advancedSemanticSearchCall (articles : List Article) (query : String) :
    Except String (List Article × Nat) :=
  if advancedSemanticSearchDefined then .ok (articles, articles.length)
  else .error "NameError: name advanced_semantic_search is not defined"

/-- The scoring stage of `get_news` for a non-empty query (line 1340) inside
the handler try/except (lines 1213 and 1408-1409): either the scored list
with its match count, or the `HTTPException(status_code=500,
detail=f"Error processing news: {e}")` built from the raised exception. -/
def getNewsQueryScoring (articles : List Article) (query : String) :
    Except (Nat × String) (List Article × Nat) :=
  match advancedSemanticSearchCall articles query with
  | .error e => .error (500, "Error processing news: " ++ e)
  | .ok r => .ok r

/-! ## Supporting lemmas -/

theorem termFrac_nonneg (terms : List String) (text : String) :
    0 ≤ termFrac terms text := by
  unfold termFrac
  split_ifs
  · exact le_refl 0
  · positivity

theorem termFrac_le_one (terms : List String) (text : String) :
    termFrac terms text ≤ 1 := by
  unfold termFrac
  split_ifs with h
  · norm_num
  · rw [div_le_one (by positivity)]
    exact_mod_cast List.length_filter_le _ _

theorem exactMatchBonus_nonneg (a : Article) (query : String) :
    0 ≤ exactMatchBonus a query := by
  unfold exactMatchBonus
  split_ifs <;> norm_num

theorem sportsBoost_nonneg (teamAcronyms terms : List String) (text : String) :
    0 ≤ sportsBoost teamAcronyms terms text := by
  unfold sportsBoost
  split_ifs
  · exact mul_nonneg (by norm_num) (le_min (by norm_num) (by positivity))
  · exact le_refl 0

theorem recencyBonus_nonneg (daysElapsed : Option Nat) :
    0 ≤ recencyBonus daysElapsed := by
  unfold recencyBonus
  cases daysElapsed with
  | none => exact le_refl 0
  | some d => exact le_max_left 0 _

/-! ## Claim C4 -/

/-- C4: a cache entry stored under a key is treated as live by a lookup iff
strictly less than `CACHE_EXPIRY = 1800` seconds have elapsed since its
timestamp; a lookup immediately after a store returns the stored list; after
1800 or more seconds the lookup misses while the entry itself remains stored
(lazy expiry, no eviction); and a store unconditionally overwrites any
previous entry under the same key. -/
theorem C4_cache_ttl_semantics (cache : NewsCache) (k : String) (now later : ℚ)
    (articles : List Article) :
    (∀ e : CacheEntry, cache k = some e →
      (cacheLookup cache k now = some e.articles ↔ now - e.timestamp < 1800)) ∧
    cacheLookup (cacheStore cache k now articles) k now = some articles ∧
    (1800 ≤ later - now →
      cacheLookup (cacheStore cache k now articles) k later = none ∧
      cacheStore cache k now articles k = some ⟨now, articles⟩) ∧
    cacheStore cache k now articles k = some ⟨now, articles⟩ := by
  have hself : cacheStore cache k now articles k = some ⟨now, articles⟩ := by
    unfold cacheStore
    simp
  have hget : ∀ t : ℚ, cacheLookup (cacheStore cache k now articles) k t =
      if t - now < CACHE_EXPIRY then some articles else none := by
    intro t
    unfold cacheLookup
    rw [hself]
  refine ⟨?_, ?_, ?_, hself⟩
  · intro e he
    simp only [cacheLookup, he, CACHE_EXPIRY]
    split_ifs with h
    · simp [h]
    · simp [h]
  · rw [hget now, if_pos (by norm_num [CACHE_EXPIRY])]
  · intro h
    refine ⟨?_, hself⟩
    rw [hget later, if_neg (not_lt.mpr (by norm_num [CACHE_EXPIRY]; linarith))]

/-- C4 witness: a concrete store under the key `"en-all"` at time 0 is read
back at time 0 and missed at time 1800. -/
theorem C4_cache_ttl_semantics_witness :
    cacheLookup (cacheStore emptyCache (cacheKey "en" none) 0 [mkArt "1" "T" "" "BBC" none])
      (cacheKey "en" none) 0 = some [mkArt "1" "T" "" "BBC" none] ∧
    cacheLookup (cacheStore emptyCache (cacheKey "en" none) 0 [mkArt "1" "T" "" "BBC" none])
      (cacheKey "en" none) 1800 = none :=
  ⟨(C4_cache_ttl_semantics emptyCache (cacheKey "en" none) 0 1800
      [mkArt "1" "T" "" "BBC" none]).2.1,
   ((C4_cache_ttl_semantics emptyCache (cacheKey "en" none) 0 1800
      [mkArt "1" "T" "" "BBC" none]).2.2.1 (by norm_num)).1⟩

/-! ## Claim C8 -/

/-- C8: when a non-empty preferred-source filter (case-insensitive substring
match against each article's source name) eliminates every article, the
filtering stage returns a normal early response — empty article list,
total_found 0, total_pages 0 and the specific explanatory message — rather
than an error. -/
theorem C8_preferred_source_empty_response (preferredSources : List String)
    (articles : List Article) (page : Nat) (avail cats : List String)
    (hne : preferredSources ≠ [])
    (hall : articles.filter (matchesPreferred preferredSources) = []) :
    preferredSourceFilter preferredSources articles page avail cats =
      .early ⟨[], "No articles found from your preferred sources. Try selecting different sources.",
        0, 0, page, avail, cats⟩ := by
  unfold preferredSourceFilter
  rw [if_pos (List.length_pos.mpr hne)]
  simp only [hall, List.isEmpty_nil, if_true]

/-- C8 witness: the preference `["BBC"]` matches no article from source
`"CNN"`, and the stage returns the explanatory empty response. -/
theorem C8_preferred_source_empty_response_witness :
    preferredSourceFilter ["BBC"] [mkArt "1" "t" "s" "CNN" none] 1 ["CNN"] ["News"] =
      .early ⟨[], "No articles found from your preferred sources. Try selecting different sources.",
        0, 0, 1, ["CNN"], ["News"]⟩ :=
  C8_preferred_source_empty_response ["BBC"] [mkArt "1" "t" "s" "CNN" none] 1
    ["CNN"] ["News"] (by decide) (by decide)

/-! ## Claim C9 -/

/-- C9: `advanced_semantic_search` is bound nowhere at module top level, so
for every article list and query the scoring stage of `get_news` raises
`NameError` at line 1340, which the handler's outer `except` converts to the
500 internal-error signal; no scored result list is ever produced. -/
theorem C9_scoring_stage_name_error (articles : List Article) (query : String) :
    advancedSemanticSearchDefined = false ∧
    getNewsQueryScoring articles query =
      .error (500, "Error processing news: NameError: name advanced_semantic_search is not defined") := by
  refine ⟨by decide, ?_⟩
  simp [getNewsQueryScoring, advancedSemanticSearchCall, advancedSemanticSearchDefined,
    moduleTopLevelNames]

/-! ## Claim C6 -/

/-- C6: with the default bound of 3 attempts, `fetch_rss_feed` always returns
a list (never an exception past its boundary): when every attempt raises it
returns the empty list after exactly 3 attempts, and when the first attempt
parses a feed with zero entries it returns the empty list after that single
attempt, with no retry. -/
theorem C6_fetch_rss_feed_retry_contract (attempts : Nat → FeedAttempt)
    (pe : FeedEntry → Option Article) :
    (∃ l : List Article, (fetch_rss_feed attempts pe 3).1 = some l) ∧
    ((∀ i, i < 3 → attempts i = .raise) → fetch_rss_feed attempts pe 3 = (some [], 3)) ∧
    (attempts 0 = .parsed [] → fetch_rss_feed attempts pe 3 = (some [], 1)) := by
  refine ⟨?_, ?_, ?_⟩
  · cases h0 : attempts 0 with
    | parsed es =>
      by_cases he : es.isEmpty
      · exact ⟨[], by simp [fetch_rss_feed, fetchLoop, h0, he]⟩
      · exact ⟨es.filterMap pe, by simp [fetch_rss_feed, fetchLoop, h0, he]⟩
    | raise =>
      cases h1 : attempts 1 with
      | parsed es =>
        by_cases he : es.isEmpty
        · exact ⟨[], by simp [fetch_rss_feed, fetchLoop, h0, h1, he]⟩
        · exact ⟨es.filterMap pe, by simp [fetch_rss_feed, fetchLoop, h0, h1, he]⟩
      | raise =>
        cases h2 : attempts 2 with
        | parsed es =>
          by_cases he : es.isEmpty
          · exact ⟨[], by simp [fetch_rss_feed, fetchLoop, h0, h1, h2, he]⟩
          · exact ⟨es.filterMap pe, by simp [fetch_rss_feed, fetchLoop, h0, h1, h2, he]⟩
        | raise => exact ⟨[], by simp [fetch_rss_feed, fetchLoop, h0, h1, h2]⟩
  · intro h
    simp [fetch_rss_feed, fetchLoop, h 0 (by norm_num), h 1 (by norm_num), h 2 (by norm_num)]
  · intro h0
    simp [fetch_rss_feed, fetchLoop, h0]

/-- C6 witness: all attempts raising gives the empty list after 3 attempts; a
first attempt parsing zero entries gives the empty list after 1 attempt. -/
theorem C6_fetch_rss_feed_retry_contract_witness :
    fetch_rss_feed (fun _ => .raise) (fun _ => none) 3 = (some [], 3) ∧
    fetch_rss_feed (fun _ => .parsed []) (fun _ => none) 3 = (some [], 1) :=
  ⟨(C6_fetch_rss_feed_retry_contract (fun _ => .raise) (fun _ => none)).2.1
      (fun i _ => rfl),
   (C6_fetch_rss_feed_retry_contract (fun _ => .parsed []) (fun _ => none)).2.2 rfl⟩

/-! ## Claim C2 -/

/-- C2: for every article, every team-acronym table, every non-empty query
and every publish-date parse outcome, the modelled relevance score lies in
[0, 1]: each contributing term is non-negative and the clamped sum does not
exceed 1. -/
theorem C2_relevance_score_bounds (teamAcronyms : List String) (a : Article)
    (query : String) (daysElapsed : Option Nat) (hq : query ≠ "") :
    0 ≤ relevanceScore teamAcronyms a query daysElapsed ∧
    relevanceScore teamAcronyms a query daysElapsed ≤ 1 := by
  constructor
  · unfold relevanceScore
    apply le_min _ (by norm_num)
    have h1 := exactMatchBonus_nonneg a query
    have h2 := termFrac_nonneg (pySplit (pyLower query)) (pyLower (articleText a))
    have h3 := termFrac_nonneg (pySplit (pyLower query)) (pyLower a.title)
    have h4 := sportsBoost_nonneg teamAcronyms (pySplit (pyLower query))
      (pyLower (articleText a))
    have h5 := recencyBonus_nonneg daysElapsed
    linarith
  · unfold relevanceScore
    exact min_le_right _ 1

/-- C2 witness: a concrete cricket article scored for the query `"cricket"`. -/
theorem C2_relevance_score_bounds_witness :
    0 ≤ relevanceScore ["csk", "mi"] (mkArt "1" "CSK vs MI" "match report" "S" none)
      "cricket" (some 0) ∧
    relevanceScore ["csk", "mi"] (mkArt "1" "CSK vs MI" "match report" "S" none)
      "cricket" (some 0) ≤ 1 :=
  C2_relevance_score_bounds ["csk", "mi"] (mkArt "1" "CSK vs MI" "match report" "S" none)
    "cricket" (some 0) (by decide)

/-! ## Claim C5 -/

theorem dedupFold_countP_le :
    ∀ (arts acc : List Article),
      (∀ t : String, acc.countP (fun b => b.title == t) ≤ 1) →
      ∀ t : String,
        (arts.foldl (fun acc a =>
            if acc.any (fun b => b.title == a.title) then acc else acc ++ [a]) acc).countP
          (fun b => b.title == t) ≤ 1 := by
  intro arts
  induction arts with
  | nil => intro acc hacc t; exact hacc t
  | cons a rest ih =>
    intro acc hacc t
    simp only [List.foldl_cons]
    apply ih
    intro t2
    by_cases hany : acc.any (fun b => b.title == a.title)
    · rw [if_pos hany]
      exact hacc t2
    · rw [if_neg hany, List.countP_append]
      by_cases ht : a.title = t2
      · have h0 : acc.countP (fun b => b.title == t2) = 0 := by
          rw [List.countP_eq_zero]
          intro b hb hbt
          apply hany
          rw [List.any_eq_true]
          refine ⟨b, hb, ?_⟩
          rw [beq_iff_eq] at hbt ⊢
          rw [hbt, ht]
        have h1 : ([a] : List Article).countP (fun b => b.title == t2) ≤ 1 := by
          simp only [List.countP_cons, List.countP_nil, beq_iff_eq]
          split_ifs
          all_goals omega
        omega
      · have h1 : ([a] : List Article).countP (fun b => b.title == t2) = 0 := by
          simp [List.countP_cons, ht]
        rw [h1]
        simpa using hacc t2

theorem dedupFold_find? :
    ∀ (arts acc : List Article) (t : String),
      (arts.foldl (fun acc a =>
          if acc.any (fun b => b.title == a.title) then acc else acc ++ [a]) acc).find?
        (fun b => b.title == t) =
      (acc.find? (fun b => b.title == t)).or (arts.find? (fun b => b.title == t)) := by
  intro arts
  induction arts with
  | nil => intro acc t; simp
  | cons a rest ih =>
    intro acc t
    simp only [List.foldl_cons]
    rw [ih]
    by_cases hany : acc.any (fun b => b.title == a.title)
    · rw [if_pos hany]
      by_cases ht : a.title = t
      · have hsome : (acc.find? (fun b => b.title == t)).isSome := by
          rw [List.find?_isSome]
          rw [List.any_eq_true] at hany
          obtain ⟨b, hb, hbt⟩ := hany
          refine ⟨b, hb, ?_⟩
          rw [beq_iff_eq] at hbt ⊢
          rw [hbt]
          exact ht
        obtain ⟨x, hx⟩ := Option.isSome_iff_exists.mp hsome
        rw [hx]
        rfl
      · rw [List.find?_cons_of_neg _ (by simp [ht])]
    · rw [if_neg hany, List.find?_append]
      by_cases ht : a.title = t
      · have hnone : acc.find? (fun b => b.title == t) = none := by
          rw [List.find?_eq_none]
          intro b hb hbt
          apply hany
          rw [List.any_eq_true]
          refine ⟨b, hb, ?_⟩
          rw [beq_iff_eq] at hbt ⊢
          rw [hbt, ht]
        have ha : List.find? (fun b => b.title == t) [a] = some a := by
          rw [List.find?_cons_of_pos _ (by simp [ht])]
        have ha2 : List.find? (fun b => b.title == t) (a :: rest) = some a := by
          rw [List.find?_cons_of_pos _ (by simp [ht])]
        rw [hnone, ha, ha2]
        rfl
      · have ha : List.find? (fun b => b.title == t) [a] = none := by
          rw [List.find?_eq_none]
          intro b hb
          simp only [List.mem_singleton] at hb
          subst hb
          simp [ht]
        rw [ha, List.find?_cons_of_neg _ (by simp [ht]), Option.or_none]

/-- C5 counterexample: with the category-scoped threshold 10, the
deduplicated feed output holding one article titled "T" plus one fallback
NewsAPI article with the same title yields a merged output carrying the title
twice — the fallback append is not subjected to the title deduplication, so
the claim as stated fails. -/
theorem C5_fallback_dedup_counterexample :
    ¬ ((appendFallback (dedupByTitle [mkArt "1" "T" "" "FeedSrc" none])
        [mkArt "2" "T" "" "NewsAPI" none] 10).countP
          (fun b => b.title == "T") ≤ 1) := by
  decide

/-- C5 amended: the coordinator's feed-merge output (`fetch_all_feeds`)
contains at most one article per distinct title and keeps, for each title,
whichever article is merged first; the fallback-source articles appended when
the merged set is below the size threshold (10 for category-scoped calls, 30
for general calls) are however appended raw, with no deduplication against
the merged output. -/
theorem C5_dedup_first_kept_fallback_raw (articles newsApi : List Article)
    (threshold : Nat) (t : String)
    (hlt : (dedupByTitle articles).length < threshold) :
    (dedupByTitle articles).countP (fun b => b.title == t) ≤ 1 ∧
    (dedupByTitle articles).find? (fun b => b.title == t) =
      articles.find? (fun b => b.title == t) ∧
    appendFallback (dedupByTitle articles) newsApi threshold =
      dedupByTitle articles ++ newsApi := by
  refine ⟨?_, ?_, ?_⟩
  · exact dedupFold_countP_le articles [] (fun t2 => by simp) t
  · have h := dedupFold_find? articles [] t
    simpa [dedupByTitle] using h
  · unfold appendFallback
    rw [if_pos hlt]

/-- C5 witness: two feed articles sharing the title "T" collapse to one, and
a distinct fallback article is appended raw below the threshold. -/
theorem C5_dedup_first_kept_fallback_raw_witness :
    (dedupByTitle [mkArt "1" "T" "" "A" none, mkArt "2" "T" "" "B" none]).countP
      (fun b => b.title == "T") ≤ 1 ∧
    appendFallback (dedupByTitle [mkArt "1" "T" "" "A" none, mkArt "2" "T" "" "B" none])
      [mkArt "3" "U" "" "N" none] 10 =
      dedupByTitle [mkArt "1" "T" "" "A" none, mkArt "2" "T" "" "B" none] ++
        [mkArt "3" "U" "" "N" none] :=
  ⟨(C5_dedup_first_kept_fallback_raw
      [mkArt "1" "T" "" "A" none, mkArt "2" "T" "" "B" none]
      [mkArt "3" "U" "" "N" none] 10 "T" (by decide)).1,
   (C5_dedup_first_kept_fallback_raw
      [mkArt "1" "T" "" "A" none, mkArt "2" "T" "" "B" none]
      [mkArt "3" "U" "" "N" none] 10 "T" (by decide)).2.2⟩

/-! ## Claim C7 -/

theorem totalPagesOf_eq_ceil (totalMatches pageSize : Nat) (hps : 0 < pageSize) :
    (totalPagesOf totalMatches pageSize : ℤ) = ⌈(totalMatches : ℚ) / (pageSize : ℚ)⌉ := by
  obtain ⟨N, hN⟩ : ∃ N, totalPagesOf totalMatches pageSize = N := ⟨_, rfl⟩
  obtain ⟨M, hM, hdm⟩ :
      ∃ M, M < pageSize ∧ pageSize * N + M = totalMatches + pageSize - 1 := by
    refine ⟨(totalMatches + pageSize - 1) % pageSize, Nat.mod_lt _ hps, ?_⟩
    rw [← hN]
    unfold totalPagesOf
    exact Nat.div_add_mod _ _
  rw [hN]
  symm
  rw [Int.ceil_eq_iff]
  have hub3 : pageSize * N + 1 ≤ totalMatches + pageSize := by omega
  have hlb : totalMatches ≤ pageSize * N := by omega
  have hubq : (pageSize : ℚ) * (N : ℚ) + 1 ≤ (totalMatches : ℚ) + (pageSize : ℚ) := by
    exact_mod_cast hub3
  have hlbq : (totalMatches : ℚ) ≤ (pageSize : ℚ) * (N : ℚ) := by exact_mod_cast hlb
  have hpsq : (0 : ℚ) < (pageSize : ℚ) := by exact_mod_cast hps
  have hcast : (((N : ℕ) : ℤ) : ℚ) = (N : ℚ) := by push_cast; ring
  constructor
  · rw [hcast, lt_div_iff₀ hpsq]
    nlinarith
  · rw [hcast, div_le_iff₀ hpsq]
    nlinarith

/-- C7: pagination: for a positive page size, a page number at least 1 and a
match count equal to the length of the ordered article list, the assembler's
total page count equals the rational ceiling of `total / page_size`, and
entry `i` of the returned page is entry `(page-1)*page_size + i` of the list,
present exactly when that index is below `min(page*page_size, total)`. -/
theorem C7_pagination_contract (filtered : List Article)
    (totalMatches page pageSize : Nat) (hps : 0 < pageSize) (hpage : 1 ≤ page)
    (hlen : filtered.length = totalMatches) :
    ((totalPagesOf totalMatches pageSize : ℤ) =
        ⌈(totalMatches : ℚ) / (pageSize : ℚ)⌉) ∧
    ∀ i : Nat, (pageSlice filtered totalMatches page pageSize)[i]? =
      if (page - 1) * pageSize + i < min (page * pageSize) totalMatches
      then filtered[(page - 1) * pageSize + i]? else none := by
  refine ⟨totalPagesOf_eq_ceil totalMatches pageSize hps, ?_⟩
  intro i
  unfold pageSlice
  have hpp : (page - 1) * pageSize + pageSize = page * pageSize := by
    have h1 : page - 1 + 1 = page := by omega
    calc (page - 1) * pageSize + pageSize = ((page - 1) + 1) * pageSize := by ring
      _ = page * pageSize := by rw [h1]
  simp only []
  by_cases hi : i < min ((page - 1) * pageSize + pageSize) totalMatches
      - (page - 1) * pageSize
  · rw [List.getElem?_take_of_lt hi, List.getElem?_drop]
    rw [if_pos (by rw [← hpp]; omega)]
  · rw [List.getElem?_eq_none, if_neg (by rw [← hpp]; omega)]
    have hlt : ((filtered.drop ((page - 1) * pageSize)).take
        (min ((page - 1) * pageSize + pageSize) totalMatches
          - (page - 1) * pageSize)).length
        ≤ min ((page - 1) * pageSize + pageSize) totalMatches
          - (page - 1) * pageSize := by
      rw [List.length_take]
      omega
    omega

/-- C7 witness: a list of 23 articles with page size 10 gives 3 total pages
(the ceiling of 23/10) and page 3 holds exactly 3 articles. -/
theorem C7_pagination_contract_witness :
    totalPagesOf 23 10 = 3 ∧
    ((totalPagesOf 23 10 : ℤ) = ⌈(23 : ℚ) / (10 : ℚ)⌉) ∧
    (pageSlice (List.replicate 23 (mkArt "x" "t" "" "S" none)) 23 3 10).length = 3 :=
  ⟨rfl,
   by
    have h := (C7_pagination_contract (List.replicate 23 (mkArt "x" "t" "" "S" none))
      23 3 10 (by norm_num) (by norm_num) (by simp)).1
    exact_mod_cast h,
   by rfl⟩

/-! ## Claim C1 -/

/-- Six articles with identical three-word titles and distinct ids. -/
def c1Articles : List Article :=
  [mkArt "1" "alpha beta gamma" "" "S" none, mkArt "2" "alpha beta gamma" "" "S" none,
   mkArt "3" "alpha beta gamma" "" "S" none, mkArt "4" "alpha beta gamma" "" "S" none,
   mkArt "5" "alpha beta gamma" "" "S" none, mkArt "6" "alpha beta gamma" "" "S" none]

/-- C1 (code bug): on `c1Articles` the clusterer with its default threshold
0.6 (= `mkRat 3 5`) takes the divide-and-conquer path, each half collapses to
a single direct cluster, the merge step finds a similar cross-half pair
(cosine similarity 1 ≥ 0.6), and the source then executes
`result[i] = list(set(left_cluster + right_cluster))` (line 874) on lists of
Python dicts — dicts are unhashable, so the call raises `TypeError` instead
of returning anything: the output is not a partition of the input, the
function does not even return. -/
theorem C1_cluster_merge_crash :
    cluster_similar_articles c1Articles (mkRat 3 5) =
      .error "TypeError: unhashable type: dict" := by
  rfl

/-! ## Claim C10 -/

/-- Twelve scored articles: two near-duplicate pairs (ids 1,2 and 4,5) with
coinciding titles, all other titles pairwise word-disjoint with pairwise
distinct vocabulary sizes (so no cross-segment cosine comparison fires), and
strictly decreasing relevance. -/
def c10Scored : List Article :=
  [mkArt "1" "a01 a02 a03" "" "S" (some 12),
   mkArt "2" "a01 a02 a03" "" "S" (some 11),
   mkArt "3" "c01 c02 c03 c04 c05" "" "S" (some 10),
   mkArt "4" "d01 d02 d03 d04" "" "S" (some 9),
   mkArt "5" "d01 d02 d03 d04" "" "S" (some 8),
   mkArt "6" "f01 f02 f03 f04 f05 f06" "" "S" (some 7),
   mkArt "7" "g01 g02 g03 g04 g05 g06 g07" "" "S" (some 6),
   mkArt "8" "h01 h02 h03 h04 h05 h06 h07 h08" "" "S" (some 5),
   mkArt "9" "i01 i02 i03 i04 i05 i06 i07 i08 i09" "" "S" (some 4),
   mkArt "10" "j01 j02 j03 j04 j05 j06 j07 j08 j09 j10" "" "S" (some 3),
   mkArt "11" "k01 k02 k03 k04 k05 k06 k07 k08 k09 k10 k11" "" "S" (some 2),
   mkArt "12" "l01 l02 l03 l04 l05 l06 l07 l08 l09 l10 l11 l12" "" "S" (some 1)]

/-- C10: on `c10Scored` the clusterer produces 10 clusters whose
representatives replace the scored list (10 ≥ min(10, 12)), yet the response
still computes total_found and total_pages from the pre-diversification match
count 12: with page size 10 this gives total_pages 2, and page 2 — valid
according to that count — comes back empty, because only 10 articles remain
available for paging. -/
theorem C10_diversification_pagination_mismatch :
    c10Scored.length = 12 ∧
    (diversifyStage c10Scored).map
      (fun f => (f.length, pageSlice f c10Scored.length 2 10,
        totalPagesOf c10Scored.length 10)) = .ok (10, [], 2) :=
  ⟨rfl, rfl⟩

/-! ## Claim C3: correctness of quick_select

Supporting development: the swap preserves the multiset, the Lomuto loop
establishes the partition invariants, and selection returns the element of
rank `k_idx`, characterized by counting. -/

theorem listSwap_getElem? {α : Type} (l : List α) (i j k : Nat)
    (hi : i < l.length) (hj : j < l.length) :
    (listSwap l i j)[k]? =
      if k = j then l[i]? else if k = i then l[j]? else l[k]? := by
  unfold listSwap
  rw [List.getElem?_eq_getElem hi, List.getElem?_eq_getElem hj]
  by_cases hkj : k = j
  · subst hkj
    rw [if_pos rfl, List.getElem?_set_eq_of_lt _ (by simpa using hj)]
  · rw [if_neg hkj, List.getElem?_set_ne (by exact fun h => hkj h.symm)]
    by_cases hki : k = i
    · subst hki
      rw [if_pos rfl, List.getElem?_set_eq_of_lt _ hi]
    · rw [if_neg hki, List.getElem?_set_ne (by exact fun h => hki h.symm)]

theorem permAux {α : Type} :
    ∀ (t : List α) (m : Nat) (x y : α), t[m]? = some y →
      (y :: t.set m x).Perm (x :: t) := by
  intro t
  induction t with
  | nil => intro m x y hm; simp at hm
  | cons a s ih =>
    intro m x y hm
    cases m with
    | zero =>
      simp only [List.getElem?_cons_zero, Option.some.injEq] at hm
      subst hm
      simpa using List.Perm.swap x a s
    | succ m2 =>
      have hm2 : s[m2]? = some y := by simpa using hm
      have step1 : (y :: a :: s.set m2 x).Perm (a :: y :: s.set m2 x) :=
        List.Perm.swap a y _
      have step2 : (a :: y :: s.set m2 x).Perm (a :: x :: s) := (ih m2 x y hm2).cons a
      have step3 : (a :: x :: s).Perm (x :: a :: s) := List.Perm.swap x a s
      simpa using (step1.trans step2).trans step3

theorem setSet_perm {α : Type} :
    ∀ (l : List α) (i j : Nat) (x y : α), l[i]? = some x → l[j]? = some y →
      ((l.set i y).set j x).Perm l := by
  intro l
  induction l with
  | nil => intro i j x y hi hj; simp at hi
  | cons a t ih =>
    intro i j x y hi hj
    cases i with
    | zero =>
      simp only [List.getElem?_cons_zero, Option.some.injEq] at hi
      subst hi
      cases j with
      | zero =>
        simp only [List.getElem?_cons_zero, Option.some.injEq] at hj
        subst hj
        simp
      | succ m =>
        have hm : t[m]? = some y := by simpa using hj
        simpa using permAux t m a y hm
    | succ p =>
      cases j with
      | zero =>
        simp only [List.getElem?_cons_zero, Option.some.injEq] at hj
        subst hj
        have hp : t[p]? = some x := by simpa using hi
        simpa using permAux t p a x hp
      | succ m =>
        have hp : t[p]? = some x := by simpa using hi
        have hm : t[m]? = some y := by simpa using hj
        simpa using (ih p m x y hp hm).cons a

theorem listSwap_perm {α : Type} (l : List α) (i j : Nat) :
    (listSwap l i j).Perm l := by
  unfold listSwap
  cases hi : l[i]? with
  | none => exact List.Perm.refl l
  | some x =>
    cases hj : l[j]? with
    | none => exact List.Perm.refl l
    | some y => exact setSet_perm l i j x y hi hj

theorem lomutoFuel_spec {α : Type} (key : α → ℚ) (pv : ℚ) :
    ∀ (fuel : Nat) (l : List α) (store i stop : Nat),
      fuel = stop - i → store ≤ i → i ≤ stop → stop ≤ l.length →
      (∀ j x, j < store → l[j]? = some x → key x ≤ pv) →
      (∀ j x, store ≤ j → j < i → l[j]? = some x → pv < key x) →
      (lomutoFuel key pv fuel l store i stop).1.Perm l ∧
      store ≤ (lomutoFuel key pv fuel l store i stop).2 ∧
      (lomutoFuel key pv fuel l store i stop).2 ≤ stop ∧
      (∀ j x, j < (lomutoFuel key pv fuel l store i stop).2 →
        (lomutoFuel key pv fuel l store i stop).1[j]? = some x → key x ≤ pv) ∧
      (∀ j x, (lomutoFuel key pv fuel l store i stop).2 ≤ j → j < stop →
        (lomutoFuel key pv fuel l store i stop).1[j]? = some x → pv < key x) ∧
      (∀ j, stop ≤ j → (lomutoFuel key pv fuel l store i stop).1[j]? = l[j]?) := by
  intro fuel
  induction fuel with
  | zero =>
    intro l store i stop hfuel hsi his hstop h1 h2
    have hieq : i = stop := by omega
    subst hieq
    exact ⟨List.Perm.refl l, Nat.le_refl store, hsi, h1,
      fun j x hj1 hj2 hy => h2 j x hj1 hj2 hy, fun j hj => rfl⟩
  | succ fuel ih =>
    intro l store i stop hfuel hsi his hstop h1 h2
    have hlt : i < stop := by omega
    have hi_len : i < l.length := by omega
    have hst_len : store < l.length := by omega
    rw [lomutoFuel, if_pos hlt]
    cases hx : l[i]? with
    | none =>
      exfalso
      rw [List.getElem?_eq_getElem hi_len] at hx
      exact Option.noConfusion hx
    | some x =>
      by_cases hle : key x ≤ pv
      · simp only [if_pos hle]
        obtain ⟨P, S1, S2, I1, I2, U⟩ := ih (listSwap l i store) (store + 1) (i + 1) stop
          (by omega) (by omega) (by omega) (by rw [listSwap_length]; omega)
          (by
            intro j y hj hy
            rw [listSwap_getElem? l i store j hi_len hst_len] at hy
            by_cases hjs : j = store
            · subst hjs
              rw [if_pos rfl, hx] at hy
              injection hy with hy
              subst hy
              exact hle
            · rw [if_neg hjs, if_neg (by omega : j ≠ i)] at hy
              exact h1 j y (by omega) hy)
          (by
            intro j y hj1 hj2 hy
            rw [listSwap_getElem? l i store j hi_len hst_len] at hy
            rw [if_neg (by omega : j ≠ store)] at hy
            by_cases hji : j = i
            · subst hji
              rw [if_pos rfl] at hy
              exact h2 store y (Nat.le_refl store) (by omega) hy
            · rw [if_neg hji] at hy
              exact h2 j y (by omega) (by omega) hy)
        refine ⟨P.trans (listSwap_perm l i store), by omega, S2, I1, I2, ?_⟩
        intro j hj
        rw [U j hj, listSwap_getElem? l i store j hi_len hst_len,
          if_neg (by omega : j ≠ store), if_neg (by omega : j ≠ i)]
      · simp only [if_neg hle]
        obtain ⟨P, S1, S2, I1, I2, U⟩ := ih l store (i + 1) stop
          (by omega) (by omega) (by omega) hstop h1
          (by
            intro j y hj1 hj2 hy
            by_cases hji : j = i
            · subst hji
              rw [hx] at hy
              injection hy with hy
              subst hy
              exact lt_of_not_le hle
            · exact h2 j y hj1 (by omega) hy)
        exact ⟨P, S1, S2, I1, I2, U⟩

theorem pyPartitionSeg_spec {α : Type} (key : α → ℚ) (l : List α) (hl : l ≠ []) :
    (pyPartitionSeg key l).1.Perm l ∧
    (pyPartitionSeg key l).2 < l.length ∧
    ∃ piv, (pyPartitionSeg key l).1[(pyPartitionSeg key l).2]? = some piv ∧
      (∀ j x, j < (pyPartitionSeg key l).2 →
        (pyPartitionSeg key l).1[j]? = some x → key x ≤ key piv) ∧
      (∀ j x, (pyPartitionSeg key l).2 < j →
        (pyPartitionSeg key l).1[j]? = some x → key piv < key x) := by
  have hn : 0 < l.length := List.length_pos.mpr hl
  have hp_lt : (l.length - 1) / 2 < l.length := by omega
  obtain ⟨P, S1, S2, I1, I2, U⟩ := lomutoFuel_spec key (pivotVal key l)
    (l.length - 1 - 0) (listSwap l ((l.length - 1) / 2) (l.length - 1)) 0 0
    (l.length - 1) rfl (Nat.le_refl 0) (Nat.zero_le _)
    (by rw [listSwap_length]; omega)
    (fun j x hj hy => absurd hj (Nat.not_lt_zero j))
    (fun j x hj1 hj2 hy => absurd hj2 (Nat.not_lt_zero j))
  set lm := (lomutoFuel key (pivotVal key l) (l.length - 1 - 0)
    (listSwap l ((l.length - 1) / 2) (l.length - 1)) 0 0 (l.length - 1)).1 with hlm
  set s0 := (lomutoFuel key (pivotVal key l) (l.length - 1 - 0)
    (listSwap l ((l.length - 1) / 2) (l.length - 1)) 0 0 (l.length - 1)).2 with hs0
  have hfst : (pyPartitionSeg key l).1 = listSwap lm s0 (l.length - 1) := rfl
  have hsnd : (pyPartitionSeg key l).2 = s0 := rfl
  have hlm_len : lm.length = l.length := by
    rw [hlm, lomutoFuel_length, listSwap_length]
  have hn1_lt : l.length - 1 < lm.length := by omega
  have hs0_lt : s0 < lm.length := by omega
  have hpark_end : (listSwap l ((l.length - 1) / 2) (l.length - 1))[l.length - 1]?
      = l[(l.length - 1) / 2]? := by
    rw [listSwap_getElem? l _ _ _ hp_lt (by omega), if_pos rfl]
  have hlm_end : lm[l.length - 1]? = some (l[(l.length - 1) / 2]) := by
    rw [U (l.length - 1) (Nat.le_refl _), hpark_end,
      List.getElem?_eq_getElem hp_lt]
  have hpv : pivotVal key l = key (l[(l.length - 1) / 2]) := by
    simp [pivotVal, List.getElem?_eq_getElem hp_lt]
  rw [hfst, hsnd]
  refine ⟨((listSwap_perm lm s0 (l.length - 1)).trans P).trans
      (listSwap_perm l ((l.length - 1) / 2) (l.length - 1)),
    by omega, l[(l.length - 1) / 2], ?_, ?_, ?_⟩
  · rw [listSwap_getElem? lm s0 (l.length - 1) s0 hs0_lt hn1_lt]
    by_cases hse : s0 = l.length - 1
    · rw [if_pos hse, hse]
      exact hlm_end
    · rw [if_neg hse, if_pos rfl]
      exact hlm_end
  · intro j x hj hy
    rw [listSwap_getElem? lm s0 (l.length - 1) j hs0_lt hn1_lt,
      if_neg (by omega : j ≠ l.length - 1), if_neg (by omega : j ≠ s0)] at hy
    rw [← hpv]
    exact I1 j x hj hy
  · intro j x hj hy
    have hjlen : j < (listSwap lm s0 (l.length - 1)).length := by
      by_contra hc
      rw [List.getElem?_eq_none (by omega)] at hy
      exact Option.noConfusion hy
    rw [listSwap_length] at hjlen
    rw [listSwap_getElem? lm s0 (l.length - 1) j hs0_lt hn1_lt] at hy
    rw [← hpv]
    by_cases hjn : j = l.length - 1
    · rw [if_pos hjn] at hy
      exact I2 s0 x (Nat.le_refl s0) (by omega) hy
    · rw [if_neg hjn, if_neg (by omega : j ≠ s0)] at hy
      exact I2 j x (by omega) (by omega) hy

theorem mem_take_key {α : Type} (l2 : List α) (s : Nat) (y : α)
    (hmem : y ∈ l2.take s) : ∃ j, j < s ∧ l2[j]? = some y := by
  obtain ⟨j, hj, hjy⟩ := List.mem_iff_getElem.mp hmem
  have hjs : j < s := by
    have := hj
    rw [List.length_take] at this
    omega
  refine ⟨j, hjs, ?_⟩
  rw [← List.getElem?_take_of_lt hjs, List.getElem?_eq_getElem hj, hjy]

theorem mem_drop_key {α : Type} (l2 : List α) (s : Nat) (y : α)
    (hmem : y ∈ l2.drop s) : ∃ j, s ≤ j ∧ j < l2.length ∧ l2[j]? = some y := by
  obtain ⟨m, hm, hmy⟩ := List.mem_iff_getElem.mp hmem
  have hmlen : m < l2.length - s := by
    have := hm
    rw [List.length_drop] at this
    omega
  refine ⟨s + m, by omega, by omega, ?_⟩
  rw [← List.getElem?_drop, List.getElem?_eq_getElem hm, hmy]

theorem split_at_getElem {α : Type} (l2 : List α) (s : Nat) (piv : α)
    (hs : l2[s]? = some piv) : l2 = l2.take s ++ piv :: l2.drop (s + 1) := by
  have hlt : s < l2.length := by
    by_contra hc
    rw [List.getElem?_eq_none (by omega)] at hs
    exact Option.noConfusion hs
  have hget : l2[s] = piv := by
    rw [List.getElem?_eq_getElem hlt] at hs
    injection hs
  conv_lhs => rw [← List.take_append_drop s l2, List.drop_eq_getElem_cons hlt, hget]

theorem quickSelectSegFuel_rank {α : Type} (key : α → ℚ) :
    ∀ (fuel : Nat) (l : List α) (kidx : Nat),
      l.length ≤ fuel → kidx < l.length →
      ∃ x, quickSelectSegFuel key fuel l kidx = some x ∧ x ∈ l ∧
        (l.map key).countP (fun v => decide (v < key x)) ≤ kidx ∧
        kidx < (l.map key).countP (fun v => decide (v ≤ key x)) := by
  intro fuel
  induction fuel with
  | zero => intro l kidx hf hk; omega
  | succ fuel ih =>
    intro l kidx hf hk
    rw [quickSelectSegFuel]
    by_cases h1 : l.length = 1
    · obtain ⟨a, rfl⟩ := List.length_eq_one.mp h1
      rw [if_pos h1]
      have hk0 : kidx = 0 := by
        simp only [List.length_singleton] at hk
        omega
      subst hk0
      refine ⟨a, rfl, List.mem_singleton_self a, by simp, by simp⟩
    · rw [if_neg h1]
      have h0 : ¬ l.length = 0 := by
        intro hc
        omega
      rw [if_neg h0]
      have hl : l ≠ [] := fun he => h0 (by rw [he]; rfl)
      obtain ⟨Pm, hslt, piv, hpiv, hleft, hright⟩ := pyPartitionSeg_spec key l hl
      simp only []
      set l2 := (pyPartitionSeg key l).1 with hl2
      set s := (pyPartitionSeg key l).2 with hs
      have hl2len : l2.length = l.length := Pm.length_eq
      have hcnt : ∀ p : ℚ → Bool, (l.map key).countP p = (l2.map key).countP p :=
        fun p => ((Pm.map key).countP_eq p).symm
      have hsplit := split_at_getElem l2 s piv hpiv
      have htake_len : (l2.take s).length = s := by
        rw [List.length_take]
        omega
      have htake : ∀ y ∈ l2.take s, key y ≤ key piv := by
        intro y hy
        obtain ⟨j, hj, hjy⟩ := mem_take_key l2 s y hy
        exact hleft j y hj hjy
      have hdrop : ∀ y ∈ l2.drop (s + 1), key piv < key y := by
        intro y hy
        obtain ⟨j, hj1, hj2, hjy⟩ := mem_drop_key l2 (s + 1) y hy
        exact hright j y (by omega) hjy
      have hmap : l2.map key =
          (l2.take s).map key ++ key piv :: (l2.drop (s + 1)).map key := by
        conv_lhs => rw [hsplit]
        simp
      have hdecomp : ∀ p : ℚ → Bool, (l.map key).countP p =
          ((l2.take s).map key).countP p +
            (((l2.drop (s + 1)).map key).countP p + if p (key piv) then 1 else 0) := by
        intro p
        rw [hcnt p, hmap, List.countP_append, List.countP_cons]
      have hpiv_mem : piv ∈ l := Pm.subset (List.getElem?_mem hpiv)
      by_cases hks : kidx = s
      · rw [if_pos hks]
        subst hks
        refine ⟨piv, hpiv, hpiv_mem, ?_, ?_⟩
        · rw [hdecomp]
          have ht : ((l2.take s).map key).countP
              (fun v => decide (v < key piv)) ≤ s := by
            calc ((l2.take s).map key).countP (fun v => decide (v < key piv))
                ≤ ((l2.take s).map key).length := List.countP_le_length _
              _ = s := by rw [List.length_map, htake_len]
          have hd : ((l2.drop (s + 1)).map key).countP
              (fun v => decide (v < key piv)) = 0 := by
            rw [List.countP_eq_zero]
            intro v hv
            obtain ⟨y, hy, rfl⟩ := List.mem_map.mp hv
            simp only [decide_eq_true_eq]
            exact lt_asymm (hdrop y hy)
          rw [hd, if_neg (by simp)]
          omega
        · rw [hdecomp]
          have ht : ((l2.take s).map key).countP
              (fun v => decide (v ≤ key piv)) = s := by
            rw [List.countP_eq_length.mpr, List.length_map, htake_len]
            intro v hv
            obtain ⟨y, hy, rfl⟩ := List.mem_map.mp hv
            simp only [decide_eq_true_eq]
            exact htake y hy
          rw [ht, if_pos (by simp)]
          omega
      · rw [if_neg hks]
        by_cases hklt : kidx < s
        · rw [if_pos hklt]
          obtain ⟨x, hres, hxmem, hcl, hcu⟩ := ih (l2.take s) kidx
            (by rw [htake_len]; omega) (by rw [htake_len]; omega)
          have hxle : key x ≤ key piv := htake x hxmem
          refine ⟨x, hres, Pm.subset (List.mem_of_mem_take hxmem), ?_, ?_⟩
          · rw [hdecomp]
            have hd : ((l2.drop (s + 1)).map key).countP
                (fun v => decide (v < key x)) = 0 := by
              rw [List.countP_eq_zero]
              intro v hv
              obtain ⟨y, hy, rfl⟩ := List.mem_map.mp hv
              simp only [decide_eq_true_eq]
              exact not_lt.mpr (le_of_lt (lt_of_le_of_lt hxle (hdrop y hy)))
            rw [hd, if_neg (by simp only [decide_eq_true_eq]; exact not_lt.mpr hxle)]
            omega
          · rw [hdecomp]
            omega
        · rw [if_neg hklt]
          have hkgt : s < kidx := by omega
          obtain ⟨x, hres, hxmem, hcl, hcu⟩ := ih (l2.drop (s + 1)) (kidx - (s + 1))
            (by rw [List.length_drop]; omega) (by rw [List.length_drop]; omega)
          have hxgt : key piv < key x := hdrop x hxmem
          refine ⟨x, hres, Pm.subset (List.mem_of_mem_drop hxmem), ?_, ?_⟩
          · rw [hdecomp]
            have ht : ((l2.take s).map key).countP
                (fun v => decide (v < key x)) = s := by
              rw [List.countP_eq_length.mpr, List.length_map, htake_len]
              intro v hv
              obtain ⟨y, hy, rfl⟩ := List.mem_map.mp hv
              simp only [decide_eq_true_eq]
              exact lt_of_le_of_lt (htake y hy) hxgt
            rw [ht, if_pos (by simp only [decide_eq_true_eq]; exact hxgt)]
            omega
          · rw [hdecomp]
            have ht : ((l2.take s).map key).countP
                (fun v => decide (v ≤ key x)) = s := by
              rw [List.countP_eq_length.mpr, List.length_map, htake_len]
              intro v hv
              obtain ⟨y, hy, rfl⟩ := List.mem_map.mp hv
              simp only [decide_eq_true_eq]
              exact le_of_lt (lt_of_le_of_lt (htake y hy) hxgt)
            rw [ht, if_pos (by simp only [decide_eq_true_eq]; exact le_of_lt hxgt)]
            omega

theorem insertDescQ_perm (x : ℚ) (ys : List ℚ) : (insertDescQ x ys).Perm (x :: ys) := by
  induction ys with
  | nil => exact List.Perm.refl _
  | cons y ys ih =>
    unfold insertDescQ
    by_cases h : y < x
    · rw [if_pos h]
    · rw [if_neg h]
      exact (ih.cons y).trans (List.Perm.swap x y ys)

theorem sortDescQ_perm (ks : List ℚ) : (sortDescQ ks).Perm ks := by
  induction ks with
  | nil => exact List.Perm.refl _
  | cons k ks ih => exact (insertDescQ_perm k (sortDescQ ks)).trans (ih.cons k)

theorem insertDescQ_sorted (x : ℚ) (ys : List ℚ)
    (hs : ys.Pairwise (fun a b => b ≤ a)) :
    (insertDescQ x ys).Pairwise (fun a b => b ≤ a) := by
  induction ys with
  | nil => simp [insertDescQ]
  | cons y ys ih =>
    rw [List.pairwise_cons] at hs
    obtain ⟨hy, hys⟩ := hs
    unfold insertDescQ
    by_cases h : y < x
    · rw [if_pos h, List.pairwise_cons]
      constructor
      · intro b hb
        rcases List.mem_cons.mp hb with rfl | hb2
        · exact le_of_lt h
        · exact le_trans (hy b hb2) (le_of_lt h)
      · rw [List.pairwise_cons]
        exact ⟨hy, hys⟩
    · rw [if_neg h, List.pairwise_cons]
      constructor
      · intro b hb
        have hmem := (insertDescQ_perm x ys).mem_iff.mp hb
        rcases List.mem_cons.mp hmem with rfl | hb2
        · exact not_lt.mp h
        · exact hy b hb2
      · exact ih hys

theorem sortDescQ_sorted (ks : List ℚ) :
    (sortDescQ ks).Pairwise (fun a b => b ≤ a) := by
  induction ks with
  | nil => simp [sortDescQ]
  | cons k ks ih => exact insertDescQ_sorted k (sortDescQ ks) ih

theorem countP_add_countP_compl (D : List ℚ) (v : ℚ) :
    D.countP (fun u => decide (v < u)) + D.countP (fun u => decide (u ≤ v))
      = D.length := by
  have h := List.length_eq_countP_add_countP (fun u => decide (v < u)) D
  rw [h]
  congr 1
  apply List.countP_congr
  intro a ha
  simp [not_lt]

theorem countP_add_countP_compl2 (D : List ℚ) (v : ℚ) :
    D.countP (fun u => decide (u < v)) + D.countP (fun u => decide (v ≤ u))
      = D.length := by
  have h := List.length_eq_countP_add_countP (fun u => decide (u < v)) D
  rw [h]
  congr 1
  apply List.countP_congr
  intro a ha
  simp [not_lt]

theorem sortedDesc_getElem_count (D : List ℚ)
    (hD : D.Pairwise (fun a b => b ≤ a)) (j : Nat) (hj : j < D.length) :
    D.countP (fun u => decide (D[j] < u)) ≤ j ∧
    j < D.countP (fun u => decide (D[j] ≤ u)) := by
  have hsplit : D = D.take j ++ D[j] :: D.drop (j + 1) := by
    conv_lhs => rw [← List.take_append_drop j D, List.drop_eq_getElem_cons hj]
  have htake_len : (D.take j).length = j := by
    rw [List.length_take]
    omega
  have htake : ∀ y ∈ D.take j, D[j] ≤ y := by
    intro y hy
    obtain ⟨i, hi, hiy⟩ := mem_take_key D j y hy
    have hilen : i < D.length := by omega
    rw [List.getElem?_eq_getElem hilen] at hiy
    injection hiy with hiy
    rw [← hiy]
    exact List.pairwise_iff_getElem.mp hD i j hilen hj hi
  have hdrop : ∀ y ∈ D.drop (j + 1), y ≤ D[j] := by
    intro y hy
    obtain ⟨m, hm1, hm2, hmy⟩ := mem_drop_key D (j + 1) y hy
    rw [List.getElem?_eq_getElem hm2] at hmy
    injection hmy with hmy
    rw [← hmy]
    exact List.pairwise_iff_getElem.mp hD j m hj hm2 (by omega)
  have hdecomp : ∀ p : ℚ → Bool, D.countP p =
      (D.take j).countP p + ((D.drop (j + 1)).countP p
        + if p D[j] then 1 else 0) := by
    intro p
    conv_lhs => rw [hsplit]
    rw [List.countP_append, List.countP_cons]
  constructor
  · rw [hdecomp]
    have hd : (D.drop (j + 1)).countP (fun u => decide (D[j] < u)) = 0 := by
      rw [List.countP_eq_zero]
      intro u hu
      simp only [decide_eq_true_eq]
      exact not_lt.mpr (hdrop u hu)
    have ht : (D.take j).countP (fun u => decide (D[j] < u)) ≤ j := by
      calc (D.take j).countP (fun u => decide (D[j] < u)) ≤ (D.take j).length :=
          List.countP_le_length _
        _ = j := htake_len
    rw [hd, if_neg (by simp)]
    omega
  · rw [hdecomp]
    have ht : (D.take j).countP (fun u => decide (D[j] ≤ u)) = j := by
      rw [List.countP_eq_length.mpr, htake_len]
      intro u hu
      simp only [decide_eq_true_eq]
      exact htake u hu
    rw [ht, if_pos (by simp)]
    omega

theorem sortedDesc_unique (D : List ℚ) (hD : D.Pairwise (fun a b => b ≤ a))
    (j : Nat) (hj : j < D.length) (v : ℚ)
    (hc1 : D.countP (fun u => decide (v < u)) ≤ j)
    (hc2 : j < D.countP (fun u => decide (v ≤ u))) :
    D[j]? = some v := by
  obtain ⟨hw1, hw2⟩ := sortedDesc_getElem_count D hD j hj
  have hjv : D[j] = v := by
    rcases lt_trichotomy v D[j] with hlt | heq | hgt
    · exfalso
      have hmono : D.countP (fun u => decide (D[j] ≤ u))
          ≤ D.countP (fun u => decide (v < u)) := by
        apply List.countP_mono_left
        intro u hu hdec
        simp only [decide_eq_true_eq] at hdec ⊢
        exact lt_of_lt_of_le hlt hdec
      omega
    · exact heq.symm
    · exfalso
      have hmono : D.countP (fun u => decide (v ≤ u))
          ≤ D.countP (fun u => decide (D[j] < u)) := by
        apply List.countP_mono_left
        intro u hu hdec
        simp only [decide_eq_true_eq] at hdec ⊢
        exact lt_of_lt_of_le hgt hdec
      omega
  rw [List.getElem?_eq_getElem hj, hjv]

theorem kthLargestKey_of_counts (ks : List ℚ) (k : Nat) (v : ℚ)
    (hk1 : 1 ≤ k) (hk2 : k ≤ ks.length)
    (hc1 : ks.countP (fun u => decide (u < v)) ≤ ks.length - k)
    (hc2 : ks.length - k < ks.countP (fun u => decide (u ≤ v))) :
    kthLargestKey ks k = some v := by
  unfold kthLargestKey
  have hperm := sortDescQ_perm ks
  have hlen : (sortDescQ ks).length = ks.length := hperm.length_eq
  have hsor := sortDescQ_sorted ks
  have e1 : (sortDescQ ks).countP (fun u => decide (u < v))
      = ks.countP (fun u => decide (u < v)) := hperm.countP_eq _
  have e2 : (sortDescQ ks).countP (fun u => decide (u ≤ v))
      = ks.countP (fun u => decide (u ≤ v)) := hperm.countP_eq _
  have comp1 := countP_add_countP_compl (sortDescQ ks) v
  have comp2 := countP_add_countP_compl2 (sortDescQ ks) v
  apply sortedDesc_unique (sortDescQ ks) hsor (k - 1) (by omega) v
  · omega
  · omega

/-- C3: `quick_select(arr, k, key)` returns `None`, never raising, exactly
when the list is empty or `k` is out of range; and for `1 ≤ k ≤ len(arr)` it
returns an element of `arr` whose key is the k-th largest key of `arr`
(so `k = 1` yields an element of maximal key, and a single-element list with
`k = 1` yields that element). -/
theorem C3_quick_select_kth_largest {α : Type} (arr : List α) (k : ℤ) (key : α → ℚ) :
    ((arr.length = 0 ∨ k < 1 ∨ (arr.length : ℤ) < k) → quick_select arr k key = none) ∧
    (1 ≤ k → k ≤ (arr.length : ℤ) →
      ∃ x, quick_select arr k key = some x ∧ x ∈ arr ∧
        kthLargestKey (arr.map key) k.toNat = some (key x)) := by
  constructor
  · intro h
    unfold quick_select
    rw [if_pos h]
  · intro hk1 hk2
    unfold quick_select
    have hlen_pos : 1 ≤ arr.length := by omega
    rw [if_neg (by push_neg; refine ⟨by omega, by omega, by omega⟩)]
    unfold quickSelectSeg
    have hkidx : arr.length - k.toNat < arr.length := by omega
    obtain ⟨x, hres, hmem, hc1, hc2⟩ := quickSelectSegFuel_rank key arr.length arr
      (arr.length - k.toNat) (Nat.le_refl _) hkidx
    refine ⟨x, hres, hmem, ?_⟩
    have hmlen : (arr.map key).length = arr.length := List.length_map arr key
    apply kthLargestKey_of_counts (arr.map key) k.toNat (key x) (by omega)
      (by omega)
    · rw [hmlen]
      exact hc1
    · rw [hmlen]
      exact hc2

/-- C3 witness: on the one-article list with `k = 1`, `quick_select` returns
that article and its key is the largest key. -/
theorem C3_quick_select_kth_largest_witness :
    ∃ x, quick_select [mkArt "1" "t" "" "S" (some 1)] 1 relKey = some x ∧
      x ∈ [mkArt "1" "t" "" "S" (some 1)] ∧
      kthLargestKey ([mkArt "1" "t" "" "S" (some 1)].map relKey) (1 : ℤ).toNat
        = some (relKey x) :=
  (C3_quick_select_kth_largest [mkArt "1" "t" "" "S" (some 1)] 1 relKey).2
    (by norm_num) (by norm_num)
